import Mathlib

/-!
Shallow embedding of the `win-security-identifier` crate: the SID data
model, its size/layout computations, byte validation, the four
representations (view, heap-owned, stack-owned, compile-time fixed-size),
the text parser/formatter, and the equality/hash/conversion contracts.

Machine integers are modelled as `Nat` with explicit bounds or `% 2 ^ w`
where the source performs a cast; byte buffers are `List Nat`;
Rust strings are `List Char`; fallible operations return `Option`.
-/

namespace WinSid

/-- Bounds from `parsing/src/lib.rs`. -/
def MIN_SUBAUTHORITY_COUNT : Nat := 1

/-- Bounds from `parsing/src/lib.rs`. -/
def MAX_SUBAUTHORITY_COUNT : Nat := 15

/-- Embedding of `core::alloc::Layout` restricted to what the crate uses:
a byte size and an alignment. -/
structure Layout where
  size : Nat
  align : Nat
  deriving DecidableEq, Repr

/-- Rounds `n` up to the next multiple of `a` (Rust
`Layout::padding_needed_for` followed by the addition). -/
def roundUpTo (n a : Nat) : Nat := (n + a - 1) / a * a

/-- Embedding of `Layout::extend`: place `other` after `self`, respecting
alignment. -/
def Layout.extend (self other : Layout) : Layout :=
  { size := roundUpTo self.size other.align + other.size
    align := max self.align other.align }

/-- Embedding of `Layout::pad_to_align`. -/
def Layout.pad_to_align (self : Layout) : Layout :=
  { size := roundUpTo self.size self.align, align := self.align }

/-- Layout of the `repr(C)` struct `SidHead` (`u8`, `u8`, `[u8; 6]`):
eight bytes, alignment one. -/
def sidHeadLayout : Layout := { size := 8, align := 1 }

/-- Size of `SidHead` (`SID_HEAD_SIZE` in `sid.rs`). -/
def SID_HEAD_SIZE : Nat := sidHeadLayout.size

/-- Layout of `[u32; count]` as computed by `Layout::array::<u32>`. -/
def u32ArrayLayout (count : Nat) : Layout := { size := 4 * count, align := 4 }

/-- The 6-byte identifier authority (`sid_identifier_authority.rs`).
The `value` list holds the raw bytes; well-formed values have length 6
with every entry below 256 (the Rust field is `[u8; 6]`). -/
structure SidIdentifierAuthority where
  value : List Nat
  deriving DecidableEq, Repr

/-- `SidIdentifierAuthority::NT_AUTHORITY`. -/
def SidIdentifierAuthority.NT_AUTHORITY : SidIdentifierAuthority :=
  ⟨[0, 0, 0, 0, 0, 5]⟩

/-- `utils::sub_authority_size_guard`: the count must lie in `[1, 15]`. -/
def sub_authority_size_guard (size : Nat) : Bool :=
  decide (MIN_SUBAUTHORITY_COUNT ≤ size ∧ size ≤ MAX_SUBAUTHORITY_COUNT)

/-- `SidSizeInfo` (`sid_size_info.rs`): a validated sub-authority count. -/
structure SidSizeInfo where
  sub_authority_count : Nat
  deriving DecidableEq, Repr

/-- `SidSizeInfo::from_count`. -/
def SidSizeInfo.from_count (sub_authority_count : Nat) : Option SidSizeInfo :=
  if sub_authority_size_guard sub_authority_count then
    some { sub_authority_count := sub_authority_count }
  else
    none

/-- `SidSizeInfo::get_sub_authority_count`. -/
def SidSizeInfo.get_sub_authority_count (self : SidSizeInfo) : Nat :=
  self.sub_authority_count

/-- `SidSizeInfo::get_layout`: header layout extended by the `u32` array
layout, padded to alignment. -/
def SidSizeInfo.get_layout (self : SidSizeInfo) : Layout :=
  (sidHeadLayout.extend (u32ArrayLayout self.sub_authority_count)).pad_to_align

/-- `SidSizeInfo::MIN`. -/
def SidSizeInfo.MIN : SidSizeInfo := { sub_authority_count := MIN_SUBAUTHORITY_COUNT }

/-- `SidSizeInfo::MAX`. -/
def SidSizeInfo.MAX : SidSizeInfo := { sub_authority_count := MAX_SUBAUTHORITY_COUNT }

/-- `SidSizeInfo::from_full_size`: inverse of `get_layout`'s size. -/
def SidSizeInfo.from_full_size (size : Nat) : Option SidSizeInfo :=
  if SidSizeInfo.MAX.get_layout.size < size ∨ size < SidSizeInfo.MIN.get_layout.size then
    none
  else
    let remaining := size - SID_HEAD_SIZE
    if ¬ remaining % 4 = 0 then
      none
    else
      SidSizeInfo.from_count (remaining / 4 % 256)

/-- Modelled from the spec: `Sid::REVISION` is referenced by `utils.rs`,
`stack_sid.rs` and the tests but its definition is not among the shown
sources; the spec fixes the single currently-valid revision value at 1. -/
def Sid.REVISION : Nat := 1

/-- The dynamically-sized SID view (`sid.rs`): header fields plus the
trailing sequence of 32-bit sub-authorities backing the fat pointer. -/
structure Sid where
  revision : Nat
  sub_authority_count : Nat
  identifier_authority : SidIdentifierAuthority
  sub_authority : List Nat
  deriving DecidableEq, Repr

/-- `Sid::get_sub_authorities`: reads `sub_authority_count` elements from
the start of the trailing array. -/
def Sid.get_sub_authorities (self : Sid) : List Nat :=
  self.sub_authority.take self.sub_authority_count

/-- Little-endian byte encoding of one `u32` value as laid out in memory. -/
def encodeU32 (v : Nat) : List Nat :=
  [v % 256, v / 256 % 256, v / 65536 % 256, v / 16777216 % 256]

/-- Little-endian byte encoding of a `u32` sequence. -/
def encodeU32s : List Nat → List Nat
  | [] => []
  | v :: rest => encodeU32 v ++ encodeU32s rest

/-- Decodes `count` little-endian `u32` values from a byte sequence
(the raw memory read performed through the fat pointer). -/
def decodeU32s : Nat → List Nat → List Nat
  | 0, _ => []
  | n + 1, b0 :: b1 :: b2 :: b3 :: rest =>
      (b0 + 256 * b1 + 65536 * b2 + 16777216 * b3) :: decodeU32s n rest
  | _ + 1, _ => []

/-- `Sid::as_binary`: the minimal binary span, i.e. the header bytes
followed by exactly `sub_authority_count` little-endian `u32` values. -/
def Sid.as_binary (self : Sid) : List Nat :=
  self.revision :: self.sub_authority_count :: self.identifier_authority.value
    ++ encodeU32s (self.sub_authority.take self.sub_authority_count)

/-- `utils::validate_sid_bytes_unaligned`: minimum size, revision byte,
count range, and exact-size checks, in source order. -/
def validate_sid_bytes_unaligned (buf : List Nat) : Bool :=
  if buf.length < SidSizeInfo.MIN.get_layout.size then
    false
  else if ¬ buf.getD 0 0 = Sid.REVISION then
    false
  else if ¬ sub_authority_size_guard (buf.getD 1 0) then
    false
  else
    match SidSizeInfo.from_count (buf.getD 1 0) with
    | some info => buf.length == info.get_layout.size
    | none => false

/-- Reading a `Sid` view out of raw bytes (`Sid::from_raw_internal`):
the count byte becomes the fat-pointer metadata, and the trailing array
is that many `u32` values starting at offset 8. -/
def decodeSid (buf : List Nat) : Sid :=
  { revision := buf.getD 0 0
    sub_authority_count := buf.getD 1 0
    identifier_authority := ⟨(buf.drop 2).take 6⟩
    sub_authority := decodeU32s (buf.getD 1 0) (buf.drop 8) }

/-- `Sid::from_bytes`: validate, then reinterpret the bytes as a view. -/
def Sid.from_bytes (value : List Nat) : Option Sid :=
  if validate_sid_bytes_unaligned value then some (decodeSid value) else none

/-- Heap-owned SID (`security_identifier.rs`): an allocation holding a
`Sid` plus the `Layout` recorded at allocation time. -/
structure SecurityIdentifier where
  sid : Sid
  layout : Layout
  deriving DecidableEq, Repr

/-- `SecurityIdentifier::new_unchecked`: allocates for the given count
(cast to `u8`), then writes the caller-supplied header fields and copies
the sub-authorities. -/
def SecurityIdentifier.new_unchecked (revision : Nat)
    (identifier_authority : SidIdentifierAuthority) (sub_authority : List Nat) :
    SecurityIdentifier :=
  let sub_authority_count := sub_authority.length % 256
  { sid := { revision := revision
             sub_authority_count := sub_authority_count
             identifier_authority := identifier_authority
             sub_authority := sub_authority }
    layout := (SidSizeInfo.mk sub_authority_count).get_layout }

/-- `SecurityIdentifier::try_new`: guard the sub-authority length, then
defer to the unchecked constructor. -/
def SecurityIdentifier.try_new (revision : Nat)
    (identifier_authority : SidIdentifierAuthority) (sub_authority : List Nat) :
    Option SecurityIdentifier :=
  if sub_authority_size_guard sub_authority.length then
    some (SecurityIdentifier.new_unchecked revision identifier_authority sub_authority)
  else
    none

/-- `<Sid as ToOwned>::to_owned`: copies the minimal binary span of the
view into a fresh allocation sized from the stored count. -/
def Sid.to_owned (self : Sid) : SecurityIdentifier :=
  { sid := decodeSid self.as_binary
    layout := (SidSizeInfo.mk self.sub_authority_count).get_layout }

/-- `SecurityIdentifier::from_bytes` (via `TryFrom<&[u8]>`): validate the
bytes as a view, then copy that view into a fresh allocation. -/
def SecurityIdentifier.from_bytes (bytes : List Nat) : Option SecurityIdentifier :=
  (Sid.from_bytes bytes).map Sid.to_owned

/-- `<SecurityIdentifier as Clone>::clone_from`: unconditionally copies
the source's minimal binary span over the destination's in place.
`copy_from_slice` requires the two spans to have equal length; on a
mismatch it panics, modelled as `none`. -/
def SecurityIdentifier.clone_from (self source : SecurityIdentifier) :
    Option SecurityIdentifier :=
  if self.sid.as_binary.length = source.sid.as_binary.length then
    some { sid := decodeSid source.sid.as_binary, layout := self.layout }
  else
    none

/-- `<SecurityIdentifier as Clone>::clone`: allocates fresh storage for
the source's count and copies via `clone_from` (the two spans have equal
length there by construction). -/
def SecurityIdentifier.clone (self : SecurityIdentifier) : SecurityIdentifier :=
  { sid := decodeSid self.sid.as_binary
    layout := (SidSizeInfo.mk self.sid.sub_authority_count).get_layout }

/-- Stack-owned SID (`stack_sid.rs`): inline capacity for 15
sub-authorities of which only the first `sub_authority_count` are
initialized; `sub_authority` models the initialized prefix. -/
structure StackSid where
  revision : Nat
  sub_authority_count : Nat
  identifier_authority : SidIdentifierAuthority
  sub_authority : List Nat
  deriving DecidableEq, Repr

/-- `StackSid::new_unchecked`: pins the revision to `Sid::REVISION`,
stores the length (cast to `u8`) and copies the values. -/
def StackSid.new_unchecked (identifier_authority : SidIdentifierAuthority)
    (sub_authority : List Nat) : StackSid :=
  { revision := Sid.REVISION
    sub_authority_count := sub_authority.length % 256
    identifier_authority := identifier_authority
    sub_authority := sub_authority }

/-- `StackSid::try_new`: guard the length, then defer to the unchecked
constructor. -/
def StackSid.try_new (identifier_authority : SidIdentifierAuthority)
    (sub_authority : List Nat) : Option StackSid :=
  if sub_authority_size_guard sub_authority.length then
    some (StackSid.new_unchecked identifier_authority sub_authority)
  else
    none

/-- `StackSid::as_sid`: fat pointer over the same memory with metadata
`sub_authority_count`, so the view's tail is the initialized prefix. -/
def StackSid.as_sid (self : StackSid) : Sid :=
  { revision := self.revision
    sub_authority_count := self.sub_authority_count
    identifier_authority := self.identifier_authority
    sub_authority := self.sub_authority.take self.sub_authority_count }

/-- `StackSid::from_bytes`: validate, then copy the bytes into the inline
structure (header plus `count` initialized tail slots). -/
def StackSid.from_bytes (bytes : List Nat) : Option StackSid :=
  if validate_sid_bytes_unaligned bytes then
    some { revision := bytes.getD 0 0
           sub_authority_count := bytes.getD 1 0
           identifier_authority := ⟨(bytes.drop 2).take 6⟩
           sub_authority := decodeU32s (bytes.getD 1 0) (bytes.drop 8) }
  else
    none

/-- `<StackSid as From<&Sid>>::from`: copies the source view's minimal
binary span into the inline structure. -/
def StackSid.from_sid (value : Sid) : StackSid :=
  let binary := value.as_binary
  { revision := binary.getD 0 0
    sub_authority_count := binary.getD 1 0
    identifier_authority := ⟨(binary.drop 2).take 6⟩
    sub_authority := decodeU32s (binary.getD 1 0) (binary.drop 8) }

/-- Compile-time fixed-size SID (`const_sid.rs`): the sub-authority array
has length `N` at the type level. -/
structure ConstSid (N : Nat) where
  revision : Nat
  sub_authority_count : Nat
  identifier_authority : SidIdentifierAuthority
  sub_authority : List Nat
  sub_authority_len : sub_authority.length = N

/-- `ConstSid::<N>::new`: pins the revision to 1 and the count to `N`
(cast to `u8`). -/
def ConstSid.new (N : Nat) (identifier_authority : SidIdentifierAuthority)
    (sub_authority : List Nat) (h : sub_authority.length = N) : ConstSid N :=
  { revision := 1
    sub_authority_count := N % 256
    identifier_authority := identifier_authority
    sub_authority := sub_authority
    sub_authority_len := h }

/-- `ConstSid::as_sid`: fat pointer over the same memory with metadata
`N`, so the view's tail is the whole fixed-size array. -/
def ConstSid.as_sid {N : Nat} (self : ConstSid N) : Sid :=
  { revision := self.revision
    sub_authority_count := self.sub_authority_count
    identifier_authority := self.identifier_authority
    sub_authority := self.sub_authority }

/-- `<ConstSid<N> as TryFrom<&Sid>>::try_from`: `try_into` on the
sub-authority slice succeeds exactly when its length equals `N`. -/
def ConstSid.try_from_sid (N : Nat) (value : Sid) : Option (ConstSid N) :=
  if h : value.get_sub_authorities.length = N then
    some { revision := value.revision
           sub_authority_count := N % 256
           identifier_authority := value.identifier_authority
           sub_authority := value.get_sub_authorities
           sub_authority_len := h }
  else
    none

/-- Fieldwise equality of two `ConstSid<N>` values, as produced by
`derive(PartialEq)`. -/
def ConstSid.fieldEq {N : Nat} (a b : ConstSid N) : Bool :=
  a.revision == b.revision && a.sub_authority_count == b.sub_authority_count
    && a.identifier_authority.value == b.identifier_authority.value
    && a.sub_authority == b.sub_authority

/-- `<Sid as PartialEq>::eq`: minimal binary spans compared bytewise. -/
def Sid.beqBinary (self other : Sid) : Bool :=
  self.as_binary == other.as_binary

/-- The exact sequence of field values fed to the hasher by
`<Sid as Hash>::hash`: revision, count, the authority, then each
sub-authority in order. -/
def Sid.hashStream (self : Sid) : List Nat :=
  self.revision :: self.sub_authority_count :: self.identifier_authority.value
    ++ self.get_sub_authorities

/-- `<SecurityIdentifier as From<ConstSid<N>>>::from`: view the fixed-size
value and copy it into a fresh allocation. -/
def ConstSid.to_security_identifier {N : Nat} (self : ConstSid N) : SecurityIdentifier :=
  Sid.to_owned self.as_sid

/-- `<StackSid as Clone>::clone`: `self.as_sid().into()`. -/
def StackSid.clone (self : StackSid) : StackSid :=
  StackSid.from_sid self.as_sid

/-- ASCII digit character for a value below 10. -/
def digitChar (d : Nat) : Char := Char.ofNat (48 + d)

/-- ASCII character for a base-16 digit, uppercase letters (Rust
`{:X}` formatting). -/
def hexDigitChar (d : Nat) : Char :=
  if d < 10 then Char.ofNat (48 + d) else Char.ofNat (55 + d)

/-- Decimal rendering of an unsigned integer (Rust `{}` formatting),
written with explicit fuel so it reduces definitionally; `n + 1` units of
fuel always suffice. -/
def natToDecAux : Nat → Nat → List Char
  | 0, _ => []
  | fuel + 1, n =>
      if n < 10 then [digitChar n]
      else natToDecAux fuel (n / 10) ++ [digitChar (n % 10)]

/-- Decimal rendering of an unsigned integer (Rust `{}` formatting). -/
def natToDec (n : Nat) : List Char := natToDecAux (n + 1) n

/-- Uppercase hexadecimal rendering (Rust `{:X}` formatting). -/
def natToHexAux : Nat → Nat → List Char
  | 0, _ => []
  | fuel + 1, n =>
      if n < 16 then [hexDigitChar n]
      else natToHexAux fuel (n / 16) ++ [hexDigitChar (n % 16)]

/-- Uppercase hexadecimal rendering (Rust `{:X}` formatting). -/
def natToHexUpper (n : Nat) : List Char := natToHexAux (n + 1) n

/-- Big-endian value of a byte sequence (`u64::from_be_bytes` after the
zero-extension performed in `Display for Sid`). -/
def beVal (bytes : List Nat) : Nat :=
  bytes.foldl (fun acc b => acc * 256 + b) 0

/-- `u64::to_be_bytes`: the eight big-endian bytes of a 64-bit value. -/
def u64ToBeBytes (v : Nat) : List Nat :=
  [v / 2 ^ 56 % 256, v / 2 ^ 48 % 256, v / 2 ^ 40 % 256, v / 2 ^ 32 % 256,
   v / 2 ^ 24 % 256, v / 2 ^ 16 % 256, v / 2 ^ 8 % 256, v % 256]

/-- The authority component of `Display for Sid`: decimal when the
48-bit value fits in 32 bits, else uppercase hexadecimal prefixed `0x`. -/
def authorityDisplay (ia : SidIdentifierAuthority) : List Char :=
  let id_auth_value := beVal ia.value
  if id_auth_value ≤ 4294967295 then natToDec id_auth_value
  else '0' :: 'x' :: natToHexUpper id_auth_value

/-- `Display for Sid`: writes `S-{revision}`, then `-{authority}`, then
`-{sub}` for each sub-authority. -/
def Sid.display (self : Sid) : List Char :=
  'S' :: '-' :: natToDec self.revision
    ++ '-' :: authorityDisplay self.identifier_authority
    ++ self.get_sub_authorities.flatMap (fun sub_auth => '-' :: natToDec sub_auth)

/-- Digit accumulation of Rust's integer `from_str`: consume characters
left to right, failing on any non-digit. -/
def parseDigits : List Char → Nat → Option Nat
  | [], acc => some acc
  | c :: rest, acc =>
      if c.isDigit then parseDigits rest (acc * 10 + (c.toNat - 48)) else none

/-- Digit phase of Rust's integer `from_str`: at least one digit, and a
checked-arithmetic overflow is any value at or above the limit. -/
def parseUIntDigits (limit : Nat) : List Char → Option Nat
  | [] => none
  | c :: rest =>
      match parseDigits (c :: rest) 0 with
      | none => none
      | some v => if v < limit then some v else none

/-- Rust `str::parse::<uN>` with `limit = 2 ^ N`: an optional leading
`+`, then one or more ASCII digits, rejecting the empty string and any
value at or above the limit (checked-arithmetic overflow). -/
def parseUInt (limit : Nat) (s : List Char) : Option Nat :=
  parseUIntDigits limit (if s.head? = some '+' then s.tail else s)

/-- Parsed components of a SID string (`parsing/src/lib.rs`). The later
snapshot of the heap-owned `FromStr` reads a `revision` field off the
components, so the parsed (and already checked) revision is kept here. -/
structure SidComponents where
  revision : Nat
  identifier_authority : List Nat
  sub_authority : List Nat
  deriving DecidableEq, Repr

/-- The sub-authority loop of `SidComponents::from_str`: parse each field
as `u32` and `try_push` it into an `ArrayVec` with the given remaining
capacity; a push onto a full vector fails. -/
def parseSubAuths : List (List Char) → Nat → Option (List Nat)
  | [], _ => some []
  | item :: rest, cap =>
      match parseUInt (2 ^ 32) item, cap with
      | none, _ => none
      | some _, 0 => none
      | some v, cap + 1 => (parseSubAuths rest cap).map (fun l => v :: l)

/-- Authority and sub-authority phase of `SidComponents::from_str`: the
authority parses as `u64` and its low six big-endian bytes are kept,
then at least one and at most fifteen `u32` sub-authorities follow. -/
def parseAfterRevision (revision : Nat) : List (List Char) → Option SidComponents
  | [] => none
  | authority_s :: sub_parts =>
      match parseUInt (2 ^ 64) authority_s with
      | none => none
      | some value =>
          match parseSubAuths sub_parts MAX_SUBAUTHORITY_COUNT with
          | none => none
          | some sub_authority =>
              if sub_authority.length < MIN_SUBAUTHORITY_COUNT then none
              else
                some { revision := revision
                       identifier_authority := (u64ToBeBytes value).drop 2
                       sub_authority := sub_authority }

/-- Revision phase of `SidComponents::from_str`: the next field parses
as `u8` and must equal 1. -/
def parseAfterHead : List (List Char) → Option SidComponents
  | [] => none
  | revision_s :: rest =>
      match parseUInt (2 ^ 8) revision_s with
      | none => none
      | some revision =>
          if ¬ revision = 1 then none else parseAfterRevision revision rest

/-- `SidComponents::from_str` after splitting on `-`: the head must be a
case-insensitive `S`, then the remaining fields are consumed in order. -/
def sidComponentsFromParts : List (List Char) → Option SidComponents
  | [] => none
  | head :: rest =>
      if head = ['s'] ∨ head = ['S'] then parseAfterHead rest else none

/-- `SidComponents::from_str`: split the input on `-` and parse the
resulting fields. -/
def sidComponentsFromStr (s : List Char) : Option SidComponents :=
  sidComponentsFromParts (s.splitOn '-')

/-- `<SecurityIdentifier as FromStr>::from_str`: parse the components,
then build the owned value with the unchecked constructor. -/
def SecurityIdentifier.from_str (s : List Char) : Option SecurityIdentifier :=
  (sidComponentsFromStr s).map (fun components =>
    SecurityIdentifier.new_unchecked components.revision
      ⟨components.identifier_authority⟩ components.sub_authority)

/-- `<StackSid as FromStr>::from_str`: parse the components, then build
the stack value with the unchecked constructor. -/
def StackSid.from_str (s : List Char) : Option StackSid :=
  (sidComponentsFromStr s).map (fun cmp =>
    StackSid.new_unchecked ⟨cmp.identifier_authority⟩ cmp.sub_authority)

example : sidComponentsFromStr "S-1-5-32-544".data =
    some { revision := 1, identifier_authority := [0, 0, 0, 0, 0, 5],
           sub_authority := [32, 544] } := by decide
example : sidComponentsFromStr "S-2-5-32-544".data = none := by decide
example : sidComponentsFromStr "S-1-5".data = none := by decide
example : (sidComponentsFromStr "s-1-5-32-544".data).isSome = true := by decide
/-- The BUILTIN\Administrators view `S-1-5-32-544` used as a concrete
test vector throughout. -/
def adminSid : Sid :=
  { revision := 1, sub_authority_count := 2,
    identifier_authority := SidIdentifierAuthority.NT_AUTHORITY,
    sub_authority := [32, 544] }

/-- A valid view whose authority value `2 ^ 40` does not fit in 32 bits,
so `Display` renders it in hexadecimal. -/
def bigAuthSid : Sid :=
  { revision := 1, sub_authority_count := 1,
    identifier_authority := ⟨[1, 0, 0, 0, 0, 0]⟩,
    sub_authority := [1] }

example : Sid.display adminSid = "S-1-5-32-544".data := by decide
example : Sid.display bigAuthSid = "S-1-0x10000000000-1".data := by decide

example : SidSizeInfo.MIN.get_layout = { size := 12, align := 4 } := by decide
example : SidSizeInfo.MAX.get_layout = { size := 68, align := 4 } := by decide

/-- Well-formedness of a `Sid` view: exactly the invariants the Rust type
system and the crate's validation establish (field bounds from `u8`,
`[u8; 6]` and `u32`, plus count/length agreement and the count range). -/
def SidWf (s : Sid) : Prop :=
  s.revision < 256 ∧
  s.sub_authority_count = s.sub_authority.length ∧
  1 ≤ s.sub_authority_count ∧ s.sub_authority_count ≤ 15 ∧
  s.identifier_authority.value.length = 6 ∧
  (∀ b ∈ s.identifier_authority.value, b < 256) ∧
  (∀ v ∈ s.sub_authority, v < 2 ^ 32)

instance (s : Sid) : Decidable (SidWf s) := by
  unfold SidWf
  infer_instance

/-- The invariant claimed by the spec for every representation: the
stored count equals the exposed sub-authority length and lies in
`[1, 15]`. -/
def SidInvariant (s : Sid) : Prop :=
  s.sub_authority_count = s.get_sub_authorities.length ∧
  1 ≤ s.sub_authority_count ∧ s.sub_authority_count ≤ 15

instance (s : Sid) : Decidable (SidInvariant s) := by
  unfold SidInvariant
  infer_instance

theorem SidWf.invariant {s : Sid} (h : SidWf s) : SidInvariant s := by
  obtain ⟨-, hlen, h1, h15, -⟩ := h
  exact ⟨by simp [Sid.get_sub_authorities, hlen], h1, h15⟩

theorem get_layout_eq (c : Nat) :
    (SidSizeInfo.mk c).get_layout = { size := 8 + 4 * c, align := 4 } := by
  have h : roundUpTo (8 + 4 * c) 4 = 8 + 4 * c := by
    unfold roundUpTo
    omega
  simp [SidSizeInfo.get_layout, Layout.extend, Layout.pad_to_align, sidHeadLayout,
    u32ArrayLayout, roundUpTo] at *
  omega

theorem length_encodeU32s (l : List Nat) : (encodeU32s l).length = 4 * l.length := by
  induction l with
  | nil => rfl
  | cons v rest ih => simp [encodeU32s, encodeU32, ih]; omega

theorem encodeU32s_lt (l : List Nat) : ∀ b ∈ encodeU32s l, b < 256 := by
  induction l with
  | nil => simp [encodeU32s]
  | cons v rest ih =>
    intro b hb
    simp only [encodeU32s, encodeU32, List.mem_append] at hb
    rcases hb with hb | hb
    · fin_cases hb <;> omega
    · exact ih b hb

theorem decode_encode_u32s {l : List Nat} (h : ∀ v ∈ l, v < 2 ^ 32) :
    decodeU32s l.length (encodeU32s l) = l := by
  induction l with
  | nil => rfl
  | cons v rest ih =>
    have hv : v < 2 ^ 32 := h v (by simp)
    simp only [List.length_cons, encodeU32s, encodeU32, List.cons_append, List.nil_append,
      decodeU32s]
    congr 1
    · omega
    · simpa using ih (fun w hw => h w (by simp [hw]))

theorem length_decodeU32s : ∀ (n : Nat) (bytes : List Nat), 4 * n ≤ bytes.length →
    (decodeU32s n bytes).length = n := by
  intro n
  induction n with
  | zero => intro bytes _; rfl
  | succ m ih =>
    intro bytes hlen
    match bytes with
    | b0 :: b1 :: b2 :: b3 :: rest =>
      simp only [decodeU32s, List.length_cons]
      rw [ih rest (by simp at hlen; omega)]
    | [] => simp at hlen
    | [b0] => simp at hlen; omega
    | [b0, b1] => simp at hlen; omega
    | [b0, b1, b2] => simp at hlen; omega

theorem as_binary_eq (s : Sid) :
    s.as_binary = s.revision :: s.sub_authority_count :: s.identifier_authority.value
      ++ encodeU32s s.get_sub_authorities := rfl

theorem as_binary_length {s : Sid} (h : SidWf s) :
    s.as_binary.length = 8 + 4 * s.sub_authority_count := by
  obtain ⟨-, hlen, -, -, hia, -⟩ := h
  simp [Sid.as_binary, length_encodeU32s, hia, hlen]
  omega

theorem guard_iff (c : Nat) : sub_authority_size_guard c = true ↔ 1 ≤ c ∧ c ≤ 15 := by
  simp [sub_authority_size_guard, MIN_SUBAUTHORITY_COUNT, MAX_SUBAUTHORITY_COUNT]

theorem from_count_eq_some {c : Nat} (h1 : 1 ≤ c) (h15 : c ≤ 15) :
    SidSizeInfo.from_count c = some ⟨c⟩ := by
  simp [SidSizeInfo.from_count, (guard_iff c).mpr ⟨h1, h15⟩]

theorem from_count_eq_none {c : Nat} (h : ¬ (1 ≤ c ∧ c ≤ 15)) :
    SidSizeInfo.from_count c = none := by
  simp only [SidSizeInfo.from_count, ite_eq_right_iff]
  intro hg
  exact absurd ((guard_iff c).mp hg) h

theorem validate_iff (buf : List Nat) :
    validate_sid_bytes_unaligned buf = true ↔
      buf.getD 0 0 = 1 ∧ 1 ≤ buf.getD 1 0 ∧ buf.getD 1 0 ≤ 15 ∧
        buf.length = 8 + 4 * buf.getD 1 0 := by
  have h12 : SidSizeInfo.MIN.get_layout.size = 12 := by decide
  constructor
  · intro h
    unfold validate_sid_bytes_unaligned at h
    rw [h12] at h
    split at h
    · cases h
    · split at h
      · cases h
      · rename_i hlen hrev
        rw [not_not] at hrev
        split at h
        · cases h
        · rename_i hguard
          rw [not_not] at hguard
          have hg : 1 ≤ buf.getD 1 0 ∧ buf.getD 1 0 ≤ 15 := (guard_iff _).mp hguard
          split at h
          · rename_i info heq
            rw [from_count_eq_some hg.1 hg.2] at heq
            cases heq
            rw [get_layout_eq] at h
            have h2 : (buf.length == 8 + 4 * buf.getD 1 0) = true := h
            exact ⟨hrev, hg.1, hg.2, beq_iff_eq.mp h2⟩
          · cases h
  · rintro ⟨hrev, h1, h15, hsz⟩
    unfold validate_sid_bytes_unaligned
    rw [h12]
    rw [if_neg (by omega)]
    rw [if_neg (by rw [not_not]; exact hrev)]
    rw [if_neg (by rw [not_not]; exact (guard_iff _).mpr ⟨h1, h15⟩)]
    rw [from_count_eq_some h1 h15]
    split
    · rename_i info heq
      cases heq
      rw [get_layout_eq]
      exact beq_iff_eq.mpr hsz
    · rename_i heq
      cases heq

theorem decodeSid_invariant {buf : List Nat}
    (h : validate_sid_bytes_unaligned buf = true) : SidInvariant (decodeSid buf) := by
  obtain ⟨hrev, h1, h15, hsz⟩ := (validate_iff buf).mp h
  have hdlen : (decodeU32s (buf.getD 1 0) (buf.drop 8)).length = buf.getD 1 0 :=
    length_decodeU32s _ _ (by rw [List.length_drop]; omega)
  refine ⟨?_, h1, h15⟩
  show buf.getD 1 0 = ((decodeU32s (buf.getD 1 0) (buf.drop 8)).take (buf.getD 1 0)).length
  rw [List.length_take, hdlen, min_self]

/-- C1: constructing a view from an untrusted byte region succeeds exactly
when the revision byte equals 1, the count byte lies in `[1, 15]`, and
the region's length equals `8 + 4 * count`; every region failing a check
is rejected and every region passing all of them yields a valid view. -/
theorem from_bytes_characterization (buf : List Nat) :
    ((Sid.from_bytes buf).isSome = true ↔
      buf.getD 0 0 = 1 ∧ 1 ≤ buf.getD 1 0 ∧ buf.getD 1 0 ≤ 15 ∧
        buf.length = 8 + 4 * buf.getD 1 0) ∧
    (∀ s, Sid.from_bytes buf = some s → SidInvariant s) := by
  constructor
  · rw [← validate_iff]
    unfold Sid.from_bytes
    by_cases h : validate_sid_bytes_unaligned buf = true
    · simp [h]
    · simp only [if_neg h, Option.isSome_none, Bool.false_eq_true, false_iff]
      simpa using h
  · intro s hs
    unfold Sid.from_bytes at hs
    split at hs
    · rename_i hval
      cases hs
      exact decodeSid_invariant hval
    · cases hs

theorem from_bytes_characterization_witness :
    SidInvariant (decodeSid [1, 1, 0, 0, 0, 0, 0, 5, 20, 0, 0, 0]) :=
  (from_bytes_characterization [1, 1, 0, 0, 0, 0, 0, 5, 20, 0, 0, 0]).2
    (decodeSid [1, 1, 0, 0, 0, 0, 0, 5, 20, 0, 0, 0]) rfl

/-- C3: for every count in `[1, 15]` the computed layout is exactly
`(8 + 4 * count, 4)`, and recovering the count from that size is the
exact inverse of the layout computation. -/
theorem layout_size_and_inverse (c : Nat) (h1 : 1 ≤ c) (h15 : c ≤ 15) :
    (SidSizeInfo.from_count c).map SidSizeInfo.get_layout
        = some { size := 8 + 4 * c, align := 4 } ∧
    SidSizeInfo.from_full_size (8 + 4 * c) = SidSizeInfo.from_count c := by
  constructor
  · rw [from_count_eq_some h1 h15]
    simp [get_layout_eq]
  · have hmax : SidSizeInfo.MAX.get_layout.size = 68 := by decide
    have hmin : SidSizeInfo.MIN.get_layout.size = 12 := by decide
    unfold SidSizeInfo.from_full_size
    rw [hmax, hmin]
    rw [if_neg (by omega)]
    have hsh : SID_HEAD_SIZE = 8 := rfl
    rw [if_neg (by rw [hsh]; omega)]
    congr 1
    rw [hsh]
    omega

theorem layout_size_and_inverse_witness :
    (SidSizeInfo.from_count 2).map SidSizeInfo.get_layout
        = some { size := 16, align := 4 } ∧
    SidSizeInfo.from_full_size 16 = SidSizeInfo.from_count 2 :=
  layout_size_and_inverse 2 (by decide) (by decide)

theorem decode_as_binary {s : Sid} (h : SidWf s) : decodeSid s.as_binary = s := by
  obtain ⟨-, hlen, -, -, hia, -, hsub⟩ := h
  cases s with
  | mk revision count ia sub =>
  cases ia with
  | mk value =>
  simp only at hlen hia hsub
  have htake : sub.take count = sub := by rw [hlen]; simp
  have hbin : Sid.as_binary ⟨revision, count, ⟨value⟩, sub⟩ =
      revision :: count :: (value ++ encodeU32s sub) := by
    simp [Sid.as_binary, Sid.get_sub_authorities, htake]
  rw [hbin]
  simp only [decodeSid, Sid.mk.injEq]
  refine ⟨by simp, by simp, ?_, ?_⟩
  · simp only [List.drop_succ_cons, List.drop_zero, SidIdentifierAuthority.mk.injEq]
    rw [← hia]
    exact List.take_left value _
  · have hgd : (revision :: count :: (value ++ encodeU32s sub)).getD 1 0 = count := by simp
    have hdrop : (revision :: count :: (value ++ encodeU32s sub)).drop 8
        = encodeU32s sub := by
      simp only [List.drop_succ_cons]
      rw [show (6 : Nat) = value.length from hia.symm]
      exact List.drop_left value _
    rw [hgd, hdrop, hlen]
    exact decode_encode_u32s hsub
theorem parseUInt_lt {limit : Nat} {s : List Char} {v : Nat}
    (h : parseUInt limit s = some v) : v < limit := by
  unfold parseUInt at h
  generalize (if s.head? = some '+' then s.tail else s) = ds at h
  match ds with
  | [] => cases h
  | c :: rest =>
    simp only [parseUIntDigits] at h
    split at h
    · cases h
    · split at h
      · cases h
        assumption
      · cases h

theorem parseSubAuths_length : ∀ (items : List (List Char)) (cap : Nat) (l : List Nat),
    parseSubAuths items cap = some l → l.length ≤ cap := by
  intro items
  induction items with
  | nil =>
    intro cap l h
    simp only [parseSubAuths] at h
    cases h
    simp
  | cons item rest ih =>
    intro cap l h
    simp only [parseSubAuths] at h
    split at h
    · cases h
    · cases h
    · rename_i v c hv
      cases htail : parseSubAuths rest c with
      | none => rw [htail] at h; cases h
      | some tail =>
        rw [htail] at h
        cases h
        simpa using ih c tail htail

theorem parseSubAuths_values : ∀ (items : List (List Char)) (cap : Nat) (l : List Nat),
    parseSubAuths items cap = some l → ∀ v ∈ l, v < 2 ^ 32 := by
  intro items
  induction items with
  | nil =>
    intro cap l h
    simp only [parseSubAuths] at h
    cases h
    simp
  | cons item rest ih =>
    intro cap l h
    simp only [parseSubAuths] at h
    split at h
    · cases h
    · cases h
    · rename_i v c hv
      cases htail : parseSubAuths rest c with
      | none => rw [htail] at h; cases h
      | some tail =>
        rw [htail] at h
        cases h
        intro w hw
        rcases List.mem_cons.mp hw with rfl | hw2
        · exact parseUInt_lt hv
        · exact ih c tail htail w hw2

/-- Everything the parser promises about a successfully parsed
components value: the revision was checked to be 1, the authority is six
bytes below 256, and between one and fifteen `u32` sub-authorities were
collected. -/
theorem components_spec {parts : List (List Char)} {c : SidComponents}
    (h : sidComponentsFromParts parts = some c) :
    c.revision = 1 ∧ c.identifier_authority.length = 6 ∧
    (∀ b ∈ c.identifier_authority, b < 256) ∧
    1 ≤ c.sub_authority.length ∧ c.sub_authority.length ≤ 15 ∧
    (∀ v ∈ c.sub_authority, v < 2 ^ 32) := by
  match parts with
  | [] => cases h
  | head :: rest =>
    simp only [sidComponentsFromParts] at h
    split at h
    case isFalse => cases h
    case isTrue =>
      match rest with
      | [] => cases h
      | revision_s :: rest2 =>
        simp only [parseAfterHead] at h
        split at h
        · cases h
        · rename_i revision hrev
          split at h
          · cases h
          · rename_i hrev1
            rw [not_not] at hrev1
            subst hrev1
            match rest2 with
            | [] => cases h
            | authority_s :: sub_parts =>
              simp only [parseAfterRevision] at h
              split at h
              · cases h
              · rename_i value hval
                split at h
                · cases h
                · rename_i sub_authority hsubs
                  split at h
                  · cases h
                  · rename_i hmin
                    cases h
                    have hlen15 := parseSubAuths_length _ _ _ hsubs
                    have hvals := parseSubAuths_values _ _ _ hsubs
                    dsimp only
                    refine ⟨rfl, by simp [u64ToBeBytes], ?_, ?_, ?_, hvals⟩
                    · intro b hb
                      simp only [u64ToBeBytes, List.drop_succ_cons, List.drop_zero] at hb
                      fin_cases hb <;> omega
                    · have h1 : ¬ sub_authority.length < 1 := by
                        simpa [MIN_SUBAUTHORITY_COUNT] using hmin
                      omega
                    · have h15 : sub_authority.length ≤ 15 := by
                        simpa [MAX_SUBAUTHORITY_COUNT] using hlen15
                      exact h15
theorem decode_fields {s : Sid} (h : SidWf s) :
    s.as_binary.getD 0 0 = s.revision ∧ s.as_binary.getD 1 0 = s.sub_authority_count ∧
    (s.as_binary.drop 2).take 6 = s.identifier_authority.value ∧
    decodeU32s (s.as_binary.getD 1 0) (s.as_binary.drop 8) = s.sub_authority := by
  have hd := decode_as_binary h
  have e0 : (decodeSid s.as_binary).revision = s.revision := congrArg Sid.revision hd
  have e1 : (decodeSid s.as_binary).sub_authority_count = s.sub_authority_count :=
    congrArg Sid.sub_authority_count hd
  have e2 : (decodeSid s.as_binary).identifier_authority.value
      = s.identifier_authority.value := congrArg (fun t => t.identifier_authority.value) hd
  have e3 : (decodeSid s.as_binary).sub_authority = s.sub_authority :=
    congrArg Sid.sub_authority hd
  exact ⟨e0, e1, e2, e3⟩

theorem to_owned_eq {s : Sid} (h : SidWf s) :
    Sid.to_owned s = ⟨s, (SidSizeInfo.mk s.sub_authority_count).get_layout⟩ := by
  unfold Sid.to_owned
  rw [decode_as_binary h]

theorem clone_eq {x : SecurityIdentifier} (h : SidWf x.sid) :
    x.clone = ⟨x.sid, (SidSizeInfo.mk x.sid.sub_authority_count).get_layout⟩ := by
  unfold SecurityIdentifier.clone
  rw [decode_as_binary h]

theorem from_sid_eq {s : Sid} (h : SidWf s) :
    StackSid.from_sid s =
      ⟨s.revision, s.sub_authority_count, s.identifier_authority, s.sub_authority⟩ := by
  obtain ⟨f0, f1, f2, f3⟩ := decode_fields h
  unfold StackSid.from_sid
  dsimp only
  rw [f0, f2, f3, f1]

theorem decodeU32s_lt : ∀ (n : Nat) (bytes : List Nat), (∀ b ∈ bytes, b < 256) →
    ∀ v ∈ decodeU32s n bytes, v < 2 ^ 32 := by
  intro n
  induction n with
  | zero => intro bytes _ v hv; cases hv
  | succ m ih =>
    intro bytes hb v hv
    match bytes with
    | b0 :: b1 :: b2 :: b3 :: rest =>
      simp only [decodeU32s, List.mem_cons] at hv
      rcases hv with rfl | hv2
      · have h0 : b0 < 256 := hb b0 (by simp)
        have h1 : b1 < 256 := hb b1 (by simp)
        have h2 : b2 < 256 := hb b2 (by simp)
        have h3 : b3 < 256 := hb b3 (by simp)
        omega
      · exact ih rest (fun b hmem => hb b (by simp [hmem])) v hv2
    | [] => cases hv
    | [b0] => cases hv
    | [b0, b1] => cases hv
    | [b0, b1, b2] => cases hv

theorem decodeSid_wf {buf : List Nat} (hv : validate_sid_bytes_unaligned buf = true)
    (hb : ∀ b ∈ buf, b < 256) : SidWf (decodeSid buf) := by
  obtain ⟨hrev, h1, h15, hsz⟩ := (validate_iff buf).mp hv
  have hdlen : (decodeU32s (buf.getD 1 0) (buf.drop 8)).length = buf.getD 1 0 :=
    length_decodeU32s _ _ (by rw [List.length_drop]; omega)
  refine ⟨?_, ?_, h1, h15, ?_, ?_, ?_⟩
  · show buf.getD 0 0 < 256
    omega
  · exact hdlen.symm
  · show ((buf.drop 2).take 6).length = 6
    rw [List.length_take, List.length_drop]
    omega
  · intro b hmem
    show b < 256
    exact hb b (List.mem_of_mem_drop (List.mem_of_mem_take hmem))
  · show ∀ v ∈ decodeU32s (buf.getD 1 0) (buf.drop 8), v < 2 ^ 32
    exact decodeU32s_lt _ _ (fun b hmem => hb b (List.mem_of_mem_drop hmem))

theorem new_unchecked_wf {r : Nat} {ia : SidIdentifierAuthority} {subs : List Nat}
    (hr : r < 256) (h1 : 1 ≤ subs.length) (h15 : subs.length ≤ 15)
    (hia : ia.value.length = 6) (hiab : ∀ b ∈ ia.value, b < 256)
    (hsubs : ∀ v ∈ subs, v < 2 ^ 32) :
    SidWf (SecurityIdentifier.new_unchecked r ia subs).sid := by
  have hc : subs.length % 256 = subs.length := Nat.mod_eq_of_lt (by omega)
  refine ⟨hr, hc, ?_, ?_, hia, hiab, hsubs⟩
  · show 1 ≤ subs.length % 256
    omega
  · show subs.length % 256 ≤ 15
    omega

theorem stack_as_sid_invariant {x : StackSid}
    (hlen : x.sub_authority_count = x.sub_authority.length)
    (h1 : 1 ≤ x.sub_authority_count) (h15 : x.sub_authority_count ≤ 15) :
    SidInvariant x.as_sid := by
  refine ⟨?_, h1, h15⟩
  show x.sub_authority_count
      = ((x.sub_authority.take x.sub_authority_count).take x.sub_authority_count).length
  rw [List.take_take, min_self, List.length_take, hlen, min_self]

theorem new_unchecked_inv (r : Nat) (ia : SidIdentifierAuthority) (subs : List Nat)
    (h1 : 1 ≤ subs.length) (h15 : subs.length ≤ 15) :
    SidInvariant (SecurityIdentifier.new_unchecked r ia subs).sid := by
  have hc : subs.length % 256 = subs.length := Nat.mod_eq_of_lt (by omega)
  refine ⟨?_, ?_, ?_⟩
  · show subs.length % 256 = (subs.take (subs.length % 256)).length
    rw [hc]
    simp
  · show 1 ≤ subs.length % 256
    omega
  · show subs.length % 256 ≤ 15
    omega

theorem stack_new_unchecked_inv (ia : SidIdentifierAuthority) (subs : List Nat)
    (h1 : 1 ≤ subs.length) (h15 : subs.length ≤ 15) :
    SidInvariant (StackSid.new_unchecked ia subs).as_sid := by
  have hc : subs.length % 256 = subs.length := Nat.mod_eq_of_lt (by omega)
  exact stack_as_sid_invariant (x := StackSid.new_unchecked ia subs) hc
    (by show 1 ≤ subs.length % 256; omega) (by show subs.length % 256 ≤ 15; omega)

theorem decodeSid_ia_length {buf : List Nat}
    (hv : validate_sid_bytes_unaligned buf = true) :
    (decodeSid buf).identifier_authority.value.length = 6 := by
  obtain ⟨hrev, h1, h15, hsz⟩ := (validate_iff buf).mp hv
  show ((buf.drop 2).take 6).length = 6
  rw [List.length_take, List.length_drop]
  omega

theorem as_binary_getD_one (s : Sid) : s.as_binary.getD 1 0 = s.sub_authority_count := by
  simp [Sid.as_binary]

theorem as_binary_drop_8 {s : Sid} (hia : s.identifier_authority.value.length = 6) :
    s.as_binary.drop 8 = encodeU32s s.get_sub_authorities := by
  show (s.revision :: s.sub_authority_count :: s.identifier_authority.value
      ++ encodeU32s s.get_sub_authorities).drop 8 = _
  simp only [List.cons_append, List.drop_succ_cons]
  rw [show (6 : Nat) = s.identifier_authority.value.length from hia.symm]
  exact List.drop_left _ _

theorem to_owned_invariant {s : Sid} (hinv : SidInvariant s)
    (hia : s.identifier_authority.value.length = 6) :
    SidInvariant (Sid.to_owned s).sid := by
  obtain ⟨hlen, h1, h15⟩ := hinv
  have hcount : s.as_binary.getD 1 0 = s.sub_authority_count := as_binary_getD_one s
  have hdrop := as_binary_drop_8 hia
  have hsubs : decodeU32s (s.as_binary.getD 1 0) (s.as_binary.drop 8)
      = decodeU32s s.sub_authority_count (encodeU32s s.get_sub_authorities) := by
    rw [hcount, hdrop]
  have hdlen : (decodeU32s (s.as_binary.getD 1 0) (s.as_binary.drop 8)).length
      = s.sub_authority_count := by
    rw [hsubs]
    exact length_decodeU32s _ _ (by rw [length_encodeU32s, ← hlen])
  refine ⟨?_, ?_, ?_⟩
  · show s.as_binary.getD 1 0
        = ((decodeU32s (s.as_binary.getD 1 0) (s.as_binary.drop 8)).take
            (s.as_binary.getD 1 0)).length
    rw [List.length_take, hdlen, hcount, min_self]
  · show 1 ≤ s.as_binary.getD 1 0
    omega
  · show s.as_binary.getD 1 0 ≤ 15
    omega

/-- C2: every validated construction, clone, and conversion between
representations yields a value whose stored count equals the length of
the exposed sub-authority sequence, with both in `[1, 15]`. -/
theorem invariant_preservation :
    (∀ r ia subs x, SecurityIdentifier.try_new r ia subs = some x → SidInvariant x.sid) ∧
    (∀ s x, SecurityIdentifier.from_str s = some x → SidInvariant x.sid) ∧
    (∀ b x, SecurityIdentifier.from_bytes b = some x → SidInvariant x.sid) ∧
    (∀ x : SecurityIdentifier, SidWf x.sid → SidInvariant x.clone.sid) ∧
    (∀ ia subs x, StackSid.try_new ia subs = some x → SidInvariant x.as_sid) ∧
    (∀ s x, StackSid.from_str s = some x → SidInvariant x.as_sid) ∧
    (∀ b x, StackSid.from_bytes b = some x → SidInvariant x.as_sid) ∧
    (∀ s : Sid, SidWf s → SidInvariant (StackSid.from_sid s).as_sid) ∧
    (∀ N ia subs h, 1 ≤ N → N ≤ 15 →
      SidInvariant (ConstSid.new N ia subs h).as_sid) ∧
    (∀ N (s : Sid) c, SidInvariant s → ConstSid.try_from_sid N s = some c →
      SidInvariant c.as_sid) ∧
    (∀ s : Sid, SidWf s → SidInvariant (Sid.to_owned s).sid) ∧
    (∀ b s, Sid.from_bytes b = some s → SidInvariant s) := by
  have hfromstr : ∀ s x, SecurityIdentifier.from_str s = some x → SidInvariant x.sid := by
    intro s x h
    unfold SecurityIdentifier.from_str at h
    cases hc : sidComponentsFromStr s with
    | none => rw [hc] at h; cases h
    | some c =>
      rw [hc] at h
      cases h
      obtain ⟨-, -, -, h1, h15, -⟩ := components_spec hc
      exact new_unchecked_inv _ _ _ h1 h15
  refine ⟨?_, hfromstr, ?_, ?_, ?_, ?_, ?_, ?_, ?_, ?_, ?_, ?_⟩
  · intro r ia subs x h
    unfold SecurityIdentifier.try_new at h
    split at h
    · rename_i hg
      cases h
      obtain ⟨h1, h15⟩ := (guard_iff _).mp hg
      exact new_unchecked_inv _ _ _ h1 h15
    · cases h
  · intro b x h
    unfold SecurityIdentifier.from_bytes Sid.from_bytes at h
    split at h
    · rename_i hv
      cases h
      exact to_owned_invariant (decodeSid_invariant hv) (decodeSid_ia_length hv)
    · cases h
  · intro x h
    rw [clone_eq h]
    exact h.invariant
  · intro ia subs x h
    unfold StackSid.try_new at h
    split at h
    · rename_i hg
      cases h
      obtain ⟨h1, h15⟩ := (guard_iff _).mp hg
      exact stack_new_unchecked_inv _ _ h1 h15
    · cases h
  · intro s x h
    unfold StackSid.from_str at h
    cases hc : sidComponentsFromStr s with
    | none => rw [hc] at h; cases h
    | some c =>
      rw [hc] at h
      cases h
      obtain ⟨-, -, -, h1, h15, -⟩ := components_spec hc
      exact stack_new_unchecked_inv _ _ h1 h15
  · intro b x h
    unfold StackSid.from_bytes at h
    split at h
    · rename_i hv
      cases h
      obtain ⟨hrev, h1, h15, hsz⟩ := (validate_iff b).mp hv
      have hdlen : (decodeU32s (b.getD 1 0) (b.drop 8)).length = b.getD 1 0 :=
        length_decodeU32s _ _ (by rw [List.length_drop]; omega)
      exact stack_as_sid_invariant hdlen.symm h1 h15
    · cases h
  · intro s h
    rw [from_sid_eq h]
    obtain ⟨-, hlen, h1, h15, -⟩ := h
    exact stack_as_sid_invariant (x := ⟨s.revision, s.sub_authority_count,
      s.identifier_authority, s.sub_authority⟩) hlen h1 h15
  · intro N ia subs hN h1 h15
    have hc : N % 256 = N := Nat.mod_eq_of_lt (by omega)
    refine ⟨?_, ?_, ?_⟩
    · show N % 256 = (subs.take (N % 256)).length
      rw [hc, List.length_take, hN, min_self]
    · show 1 ≤ N % 256
      omega
    · show N % 256 ≤ 15
      omega
  · intro N s c hinv h
    unfold ConstSid.try_from_sid at h
    split at h
    · rename_i hlen
      cases h
      obtain ⟨hsl, h1, h15⟩ := hinv
      have hN15 : N ≤ 15 := by omega
      have hN1 : 1 ≤ N := by omega
      have hc : N % 256 = N := Nat.mod_eq_of_lt (by omega)
      refine ⟨?_, ?_, ?_⟩
      · show N % 256 = (s.get_sub_authorities.take (N % 256)).length
        rw [hc, List.length_take, hlen, min_self]
      · show 1 ≤ N % 256
        omega
      · show N % 256 ≤ 15
        omega
    · cases h
  · intro s h
    rw [to_owned_eq h]
    exact h.invariant
  · intro b s h
    unfold Sid.from_bytes at h
    split at h
    · rename_i hv
      cases h
      exact decodeSid_invariant hv
    · cases h

theorem invariant_preservation_witness :
    SidInvariant (SecurityIdentifier.new_unchecked 1
      SidIdentifierAuthority.NT_AUTHORITY [32, 544]).sid :=
  invariant_preservation.1 1 SidIdentifierAuthority.NT_AUTHORITY [32, 544]
    (SecurityIdentifier.new_unchecked 1 SidIdentifierAuthority.NT_AUTHORITY [32, 544]) rfl

/-- C8: the documented rejection and acceptance cases: counts 0 and 16
are invalid, a bad revision and a missing sub-authority are rejected by
the parser, and the leading `S` is case-insensitive. -/
theorem rejection_cases :
    SidSizeInfo.from_count 0 = none ∧
    SidSizeInfo.from_count 16 = none ∧
    sidComponentsFromStr "S-2-5-32-544".data = none ∧
    sidComponentsFromStr "S-1-5".data = none ∧
    (sidComponentsFromStr "s-1-5-32-544".data).isSome = true := by decide

/-- C9: the identifier with NT authority and sub-authorities `[32, 544]`
formats as `S-1-5-32-544`, has the documented 16-byte minimal binary
span, converts into the fixed-size representation with two slots, and
fails to convert into three slots. -/
theorem concrete_scenario_admin :
    (SecurityIdentifier.try_new 1 SidIdentifierAuthority.NT_AUTHORITY [32, 544]).map
        SecurityIdentifier.sid = some adminSid ∧
    Sid.display adminSid = "S-1-5-32-544".data ∧
    adminSid.as_binary = [1, 2, 0, 0, 0, 0, 0, 5, 32, 0, 0, 0, 32, 2, 0, 0] ∧
    (ConstSid.try_from_sid 2 adminSid).isSome = true ∧
    (ConstSid.try_from_sid 3 adminSid).isNone = true := by decide

/-- C10: each numeric field accepts an optional leading plus sign, so a
string the formatter never produces still parses, to the same components
as its plain form. -/
theorem plus_sign_accepted :
    (sidComponentsFromStr "s-+1-+5-+32-+544".data).isSome = true ∧
    sidComponentsFromStr "s-+1-+5-+32-+544".data
      = sidComponentsFromStr "S-1-5-32-544".data := by decide

theorem digitChar_spec : ∀ d < 10, (digitChar d).isDigit = true ∧
    (digitChar d).toNat = 48 + d ∧ digitChar d ≠ '-' ∧ digitChar d ≠ '+' := by decide

theorem natToDecAux_digits : ∀ (fuel n : Nat), ∀ c ∈ natToDecAux fuel n,
    c.isDigit = true := by
  intro fuel
  induction fuel with
  | zero => intro n c hc; cases hc
  | succ f ih =>
    intro n c hc
    simp only [natToDecAux] at hc
    split at hc
    · rename_i hn
      rcases List.mem_singleton.mp hc with rfl
      exact (digitChar_spec n hn).1
    · rcases List.mem_append.mp hc with hc2 | hc2
      · exact ih _ c hc2
      · rcases List.mem_singleton.mp hc2 with rfl
        exact (digitChar_spec (n % 10) (Nat.mod_lt n (by omega))).1

theorem natToDec_digits (n : Nat) : ∀ c ∈ natToDec n, c.isDigit = true :=
  natToDecAux_digits (n + 1) n

theorem natToDec_no_dash (n : Nat) : '-' ∉ natToDec n := by
  intro hmem
  have := natToDec_digits n '-' hmem
  simp [Char.isDigit] at this

theorem natToDecAux_ne_nil (fuel n : Nat) (h : 1 ≤ fuel) : natToDecAux fuel n ≠ [] := by
  match fuel, h with
  | f + 1, _ =>
    simp only [natToDecAux]
    split
    · simp
    · simp

theorem natToDec_ne_nil (n : Nat) : natToDec n ≠ [] :=
  natToDecAux_ne_nil (n + 1) n (by omega)

theorem parseDigits_append (xs ys : List Char) (acc : Nat) :
    parseDigits (xs ++ ys) acc = (parseDigits xs acc).bind (fun a => parseDigits ys a) := by
  induction xs generalizing acc with
  | nil => simp [parseDigits]
  | cons c rest ih =>
    simp only [List.cons_append, parseDigits]
    split
    · exact ih _
    · simp

theorem parseDigits_natToDecAux : ∀ (fuel n acc : Nat), n < 10 ^ fuel →
    parseDigits (natToDecAux fuel n) acc
      = some (acc * 10 ^ (natToDecAux fuel n).length + n) := by
  intro fuel
  induction fuel with
  | zero =>
    intro n acc h
    have hn : n = 0 := by simpa using h
    subst hn
    simp [natToDecAux, parseDigits]
  | succ f ih =>
    intro n acc h
    simp only [natToDecAux]
    split
    · rename_i hn
      obtain ⟨hdig, htn, -, -⟩ := digitChar_spec n hn
      simp [parseDigits, hdig, htn]
    · rename_i hn
      have hdiv : n / 10 < 10 ^ f := by
        apply Nat.div_lt_of_lt_mul
        rw [pow_succ] at h
        omega
      rw [parseDigits_append]
      rw [ih (n / 10) acc hdiv]
      obtain ⟨hdig, htn, -, -⟩ := digitChar_spec (n % 10) (Nat.mod_lt n (by omega))
      simp only [Option.bind_some, parseDigits, hdig, if_pos, htn, List.length_append,
        List.length_singleton]
      show some ((acc * 10 ^ (natToDecAux f (n / 10)).length + n / 10) * 10
            + (48 + n % 10 - 48))
          = some (acc * 10 ^ ((natToDecAux f (n / 10)).length + 1) + n)
      rw [Nat.add_sub_cancel_left]
      congr 1
      have hdm : n / 10 * 10 + n % 10 = n := by omega
      calc (acc * 10 ^ (natToDecAux f (n / 10)).length + n / 10) * 10 + n % 10
          = acc * (10 ^ (natToDecAux f (n / 10)).length * 10)
              + (n / 10 * 10 + n % 10) := by ring
        _ = acc * 10 ^ ((natToDecAux f (n / 10)).length + 1) + n := by
              rw [hdm, pow_succ]

theorem head_digit_of_natToDec (n : Nat) :
    ∃ c rest, natToDec n = c :: rest ∧ c.isDigit = true := by
  cases hne : natToDec n with
  | nil => exact absurd hne (natToDec_ne_nil n)
  | cons c rest => exact ⟨c, rest, rfl, natToDec_digits n c (by rw [hne]; simp)⟩

theorem parseUInt_natToDec {limit n : Nat} (h : n < limit) :
    parseUInt limit (natToDec n) = some n := by
  obtain ⟨c, rest, hne, hdig⟩ := head_digit_of_natToDec n
  have hplus : c ≠ '+' := by
    intro hc
    subst hc
    simp [Char.isDigit] at hdig
  have hbound : n < 10 ^ (n + 1) := by
    calc n < 10 ^ n := Nat.lt_pow_self (by omega) n
    _ ≤ 10 ^ (n + 1) := Nat.pow_le_pow_right (by omega) (by omega)
  have hparse : parseDigits (natToDec n) 0
      = some (0 * 10 ^ (natToDec n).length + n) :=
    parseDigits_natToDecAux (n + 1) n 0 hbound
  rw [Nat.zero_mul, Nat.zero_add] at hparse
  unfold parseUInt
  rw [hne]
  rw [if_neg (by simp [hplus])]
  simp only [parseUIntDigits]
  rw [← hne, hparse]
  simp [h]

theorem intercalate_cons_flatMap (p : List Char) (ps : List (List Char)) :
    List.intercalate ['-'] (p :: ps) = p ++ ps.flatMap (fun q => '-' :: q) := by
  induction ps generalizing p with
  | nil => simp [List.intercalate]
  | cons q qs ih =>
    have h2 : List.intercalate ['-'] (p :: q :: qs)
        = p ++ ['-'] ++ List.intercalate ['-'] (q :: qs) := by
      simp [List.intercalate, List.intersperse]
    rw [h2, ih q]
    simp

theorem display_parts (s : Sid) :
    Sid.display s = List.intercalate ['-']
      (['S'] :: natToDec s.revision :: authorityDisplay s.identifier_authority ::
        s.get_sub_authorities.map natToDec) := by
  rw [intercalate_cons_flatMap]
  simp [Sid.display, List.flatMap_cons, List.flatMap_map]

theorem splitOn_display {s : Sid}
    (hauth : beVal s.identifier_authority.value ≤ 4294967295) :
    (Sid.display s).splitOn '-'
      = ['S'] :: natToDec s.revision :: natToDec (beVal s.identifier_authority.value)
          :: s.get_sub_authorities.map natToDec := by
  have had : authorityDisplay s.identifier_authority
      = natToDec (beVal s.identifier_authority.value) := by
    unfold authorityDisplay
    rw [if_pos hauth]
  rw [display_parts, had]
  apply List.splitOn_intercalate
  · intro l hl
    simp only [List.mem_cons] at hl
    rcases hl with rfl | rfl | rfl | hl
    · decide
    · exact natToDec_no_dash _
    · exact natToDec_no_dash _
    · obtain ⟨v, -, rfl⟩ := List.mem_map.mp hl
      exact natToDec_no_dash _
  · simp

theorem beVal_lt {ia : List Nat} (hlen : ia.length = 6) (hb : ∀ b ∈ ia, b < 256) :
    beVal ia < 2 ^ 48 := by
  match ia, hlen with
  | [b0, b1, b2, b3, b4, b5], _ =>
    have h0 : b0 < 256 := hb b0 (by simp)
    have h1 : b1 < 256 := hb b1 (by simp)
    have h2 : b2 < 256 := hb b2 (by simp)
    have h3 : b3 < 256 := hb b3 (by simp)
    have h4 : b4 < 256 := hb b4 (by simp)
    have h5 : b5 < 256 := hb b5 (by simp)
    have hv : beVal [b0, b1, b2, b3, b4, b5]
        = ((((b0 * 256 + b1) * 256 + b2) * 256 + b3) * 256 + b4) * 256 + b5 := by
      simp [beVal]
    rw [hv]
    omega

theorem u64_drop2_beVal {ia : List Nat} (hlen : ia.length = 6)
    (hb : ∀ b ∈ ia, b < 256) : (u64ToBeBytes (beVal ia)).drop 2 = ia := by
  match ia, hlen with
  | [b0, b1, b2, b3, b4, b5], _ =>
    have h0 : b0 < 256 := hb b0 (by simp)
    have h1 : b1 < 256 := hb b1 (by simp)
    have h2 : b2 < 256 := hb b2 (by simp)
    have h3 : b3 < 256 := hb b3 (by simp)
    have h4 : b4 < 256 := hb b4 (by simp)
    have h5 : b5 < 256 := hb b5 (by simp)
    have hv : beVal [b0, b1, b2, b3, b4, b5]
        = ((((b0 * 256 + b1) * 256 + b2) * 256 + b3) * 256 + b4) * 256 + b5 := by
      simp [beVal]
    rw [hv]
    simp only [u64ToBeBytes, List.drop_succ_cons, List.drop_zero, List.cons.injEq]
    refine ⟨by omega, by omega, by omega, by omega, by omega, by omega, trivial⟩

theorem parseSubAuths_map_natToDec {l : List Nat} :
    ∀ cap, (∀ v ∈ l, v < 2 ^ 32) → l.length ≤ cap →
      parseSubAuths (l.map natToDec) cap = some l := by
  induction l with
  | nil => intro cap _ _; rfl
  | cons v vs ih =>
    intro cap hv hcap
    cases cap with
    | zero => simp at hcap
    | succ c =>
      have hparse : parseUInt (2 ^ 32) (natToDec v) = some v :=
        parseUInt_natToDec (hv v (by simp))
      simp only [List.map_cons, parseSubAuths, hparse]
      rw [ih c (fun w hw => hv w (by simp [hw])) (by simpa using hcap)]
      rfl

theorem components_of_display {x : Sid} (hwf : SidWf x) (hrev : x.revision = 1)
    (hauth : beVal x.identifier_authority.value < 2 ^ 32) :
    sidComponentsFromStr (Sid.display x)
      = some ⟨1, x.identifier_authority.value, x.sub_authority⟩ := by
  obtain ⟨hr256, hlen, h1, h15, hia6, hiab, hsubs⟩ := hwf
  have hle : beVal x.identifier_authority.value ≤ 4294967295 := by omega
  have hgsub : x.get_sub_authorities = x.sub_authority := by
    show x.sub_authority.take _ = _
    rw [hlen]
    simp
  unfold sidComponentsFromStr
  rw [splitOn_display hle]
  unfold sidComponentsFromParts
  dsimp only
  rw [if_pos (Or.inr rfl)]
  unfold parseAfterHead
  rw [hrev]
  dsimp only
  rw [parseUInt_natToDec (show (1 : Nat) < 2 ^ 8 by omega)]
  dsimp only
  rw [if_neg (by simp)]
  unfold parseAfterRevision
  dsimp only
  rw [parseUInt_natToDec (show beVal x.identifier_authority.value < 2 ^ 64 by omega)]
  dsimp only
  rw [show MAX_SUBAUTHORITY_COUNT = 15 from rfl]
  rw [parseSubAuths_map_natToDec 15
    (by rw [hgsub]; exact hsubs) (by rw [hgsub, ← hlen]; omega)]
  dsimp only
  rw [if_neg (by rw [hgsub, ← hlen]; simp [MIN_SUBAUTHORITY_COUNT]; omega)]
  rw [u64_drop2_beVal hia6 hiab, hgsub]

/-- C5 (amended): for every well-formed identifier with revision 1 whose
authority value fits in 32 bits, parsing the formatted string yields the
identifier back, and formatting that parse yields the string back. -/
theorem display_parse_roundtrip (x : Sid) (hwf : SidWf x) (hrev : x.revision = 1)
    (hauth : beVal x.identifier_authority.value < 2 ^ 32) :
    SecurityIdentifier.from_str (Sid.display x)
        = some ⟨x, (SidSizeInfo.mk x.sub_authority_count).get_layout⟩ ∧
    (SecurityIdentifier.from_str (Sid.display x)).map (fun y => Sid.display y.sid)
        = some (Sid.display x) := by
  have hmain : SecurityIdentifier.from_str (Sid.display x)
      = some ⟨x, (SidSizeInfo.mk x.sub_authority_count).get_layout⟩ := by
    unfold SecurityIdentifier.from_str
    rw [components_of_display hwf hrev hauth]
    obtain ⟨hr256, hlen, h1, h15, hia6, hiab, hsubs⟩ := hwf
    have hcnt : x.sub_authority.length % 256 = x.sub_authority_count := by omega
    show some (SecurityIdentifier.new_unchecked 1
        ⟨x.identifier_authority.value⟩ x.sub_authority) = _
    unfold SecurityIdentifier.new_unchecked
    dsimp only
    rw [hcnt]
    congr 1
    cases x with
    | mk r c ia sub =>
    cases ia with
    | mk val =>
    simp only at hrev
    subst hrev
    rfl
  exact ⟨hmain, by rw [hmain]; rfl⟩

theorem display_parse_roundtrip_witness :
    SecurityIdentifier.from_str (Sid.display adminSid)
        = some ⟨adminSid, (SidSizeInfo.mk adminSid.sub_authority_count).get_layout⟩ ∧
    (SecurityIdentifier.from_str (Sid.display adminSid)).map (fun y => Sid.display y.sid)
        = some (Sid.display adminSid) :=
  display_parse_roundtrip adminSid (by decide) (by decide) (by decide)

/-- C5 counterexample: a valid identifier whose authority does not fit in
32 bits formats in hexadecimal, which the parser rejects, so
`parse(format(x))` fails rather than yielding `x` back. -/
theorem display_parse_roundtrip_counterexample :
    SidWf bigAuthSid ∧ bigAuthSid.revision = 1 ∧
    SecurityIdentifier.from_str (Sid.display bigAuthSid) = none := by decide

theorem ia_ext {a b : SidIdentifierAuthority} (h : a.value = b.value) : a = b := by
  cases a
  cases b
  simpa using h

theorem binary_injective {a b : Sid} (ha : SidWf a) (hb : SidWf b)
    (h : a.as_binary = b.as_binary) : a = b := by
  calc a = decodeSid a.as_binary := (decode_as_binary ha).symm
    _ = decodeSid b.as_binary := by rw [h]
    _ = b := decode_as_binary hb

/-- C4: two well-formed values compare equal exactly when their minimal
binary spans are byte-identical, equal values feed identical field
streams to the hasher, and the fixed-size representation's derived
fieldwise equality agrees with the byte-span criterion. -/
theorem equality_hash_contract {a b : Sid} (ha : SidWf a) (hb : SidWf b) :
    (Sid.beqBinary a b = true ↔ a.as_binary = b.as_binary) ∧
    (Sid.beqBinary a b = true → a = b ∧ a.hashStream = b.hashStream) ∧
    (∀ N (c d : ConstSid N), SidWf c.as_sid → SidWf d.as_sid →
      (ConstSid.fieldEq c d = true ↔ c.as_sid.as_binary = d.as_sid.as_binary)) := by
  refine ⟨beq_iff_eq, ?_, ?_⟩
  · intro h
    have hbin : a.as_binary = b.as_binary := beq_iff_eq.mp h
    have heq := binary_injective ha hb hbin
    exact ⟨heq, by rw [heq]⟩
  · intro N c d hc hd
    constructor
    · intro h
      simp only [ConstSid.fieldEq, Bool.and_eq_true, beq_iff_eq] at h
      obtain ⟨⟨⟨h1, h2⟩, h3⟩, h4⟩ := h
      have hsid : c.as_sid = d.as_sid := by
        unfold ConstSid.as_sid
        rw [h1, h2, h4, ia_ext h3]
      rw [hsid]
    · intro h
      have hsid : c.as_sid = d.as_sid := binary_injective hc hd h
      have e1 : c.revision = d.revision := congrArg Sid.revision hsid
      have e2 : c.sub_authority_count = d.sub_authority_count :=
        congrArg Sid.sub_authority_count hsid
      have e3 : c.identifier_authority.value = d.identifier_authority.value :=
        congrArg (fun t => t.identifier_authority.value) hsid
      have e4 : c.sub_authority = d.sub_authority := congrArg Sid.sub_authority hsid
      simp [ConstSid.fieldEq, e1, e2, e3, e4]

theorem equality_hash_contract_witness : adminSid.hashStream = adminSid.hashStream :=
  ((equality_hash_contract (a := adminSid) (b := adminSid)
    (by decide) (by decide)).2.1 (by decide)).2

theorem as_binary_getD_zero (s : Sid) : s.as_binary.getD 0 0 = s.revision := by
  simp [Sid.as_binary]

/-- C7 (amended): every parsing path and the stack-owned and fixed-size
constructors pin the revision to 1; the heap-owned constructors instead
store the caller-supplied revision unchecked, so they yield revision 1
exactly when the caller passes 1. -/
theorem revision_provenance :
    (∀ s y, SecurityIdentifier.from_str s = some y → y.sid.revision = 1) ∧
    (∀ b y, SecurityIdentifier.from_bytes b = some y → y.sid.revision = 1) ∧
    (∀ b y, Sid.from_bytes b = some y → y.revision = 1) ∧
    (∀ ia subs y, StackSid.try_new ia subs = some y → y.revision = 1) ∧
    (∀ s y, StackSid.from_str s = some y → y.revision = 1) ∧
    (∀ b y, StackSid.from_bytes b = some y → y.revision = 1) ∧
    (∀ N ia subs h, (ConstSid.new N ia subs h).revision = 1) ∧
    (∀ r ia subs y, SecurityIdentifier.try_new r ia subs = some y → y.sid.revision = r) := by
  refine ⟨?_, ?_, ?_, ?_, ?_, ?_, ?_, ?_⟩
  · intro s y h
    unfold SecurityIdentifier.from_str at h
    cases hc : sidComponentsFromStr s with
    | none => rw [hc] at h; cases h
    | some c =>
      rw [hc] at h
      cases h
      obtain ⟨hrev, -⟩ := components_spec hc
      exact hrev
  · intro b y h
    unfold SecurityIdentifier.from_bytes Sid.from_bytes at h
    split at h
    · rename_i hv
      cases h
      obtain ⟨hrev, -⟩ := (validate_iff b).mp hv
      show (decodeSid (decodeSid b).as_binary).revision = 1
      rw [show (decodeSid (decodeSid b).as_binary).revision
          = (decodeSid b).as_binary.getD 0 0 from rfl]
      rw [as_binary_getD_zero]
      exact hrev
    · cases h
  · intro b y h
    unfold Sid.from_bytes at h
    split at h
    · rename_i hv
      cases h
      obtain ⟨hrev, -⟩ := (validate_iff b).mp hv
      exact hrev
    · cases h
  · intro ia subs y h
    unfold StackSid.try_new at h
    split at h
    · cases h
      rfl
    · cases h
  · intro s y h
    unfold StackSid.from_str at h
    cases hc : sidComponentsFromStr s with
    | none => rw [hc] at h; cases h
    | some c =>
      rw [hc] at h
      cases h
      rfl
  · intro b y h
    unfold StackSid.from_bytes at h
    split at h
    · rename_i hv
      cases h
      obtain ⟨hrev, -⟩ := (validate_iff b).mp hv
      exact hrev
    · cases h
  · intro N ia subs h
    rfl
  · intro r ia subs y h
    unfold SecurityIdentifier.try_new at h
    split at h
    · cases h
      rfl
    · cases h

theorem revision_provenance_witness :
    (SecurityIdentifier.new_unchecked 1
      SidIdentifierAuthority.NT_AUTHORITY [32, 544]).sid.revision = 1 :=
  revision_provenance.2.2.2.2.2.2.2 1 SidIdentifierAuthority.NT_AUTHORITY [32, 544]
    (SecurityIdentifier.new_unchecked 1 SidIdentifierAuthority.NT_AUTHORITY [32, 544]) rfl

/-- C7 counterexample: the heap-owned validated constructor accepts a
caller-supplied revision of 2 and produces a value whose revision is 2,
so validated construction does not pin the revision to 1. -/
theorem revision_pinned_counterexample :
    (SecurityIdentifier.try_new 2 SidIdentifierAuthority.NT_AUTHORITY [1]).map
      (fun y => y.sid.revision) = some 2 := by decide

/-- C6 (amended): clone-from copies the source's span over the
destination in place when the layouts (counts) agree, producing a
byte-identical destination without allocating; when they disagree it
fails (the copy panics) instead of allocating fresh; plain clone always
allocates for the source's count and produces a byte-identical copy. -/
theorem clone_from_contract (dest src : SecurityIdentifier)
    (hd : SidWf dest.sid) (hs : SidWf src.sid) :
    (dest.sid.sub_authority_count = src.sid.sub_authority_count →
      SecurityIdentifier.clone_from dest src = some ⟨src.sid, dest.layout⟩) ∧
    (¬ dest.sid.sub_authority_count = src.sid.sub_authority_count →
      SecurityIdentifier.clone_from dest src = none) ∧
    src.clone.sid.as_binary = src.sid.as_binary := by
  have hld := as_binary_length hd
  have hls := as_binary_length hs
  refine ⟨?_, ?_, ?_⟩
  · intro hcnt
    unfold SecurityIdentifier.clone_from
    rw [if_pos (by omega)]
    rw [decode_as_binary hs]
  · intro hcnt
    unfold SecurityIdentifier.clone_from
    rw [if_neg (by omega)]
  · rw [clone_eq hs]

theorem clone_from_contract_witness :
    (SecurityIdentifier.new_unchecked 1
        SidIdentifierAuthority.NT_AUTHORITY [32, 544]).clone.sid.as_binary
      = (SecurityIdentifier.new_unchecked 1
        SidIdentifierAuthority.NT_AUTHORITY [32, 544]).sid.as_binary :=
  (clone_from_contract
    (SecurityIdentifier.new_unchecked 1 SidIdentifierAuthority.NT_AUTHORITY [32, 544])
    (SecurityIdentifier.new_unchecked 1 SidIdentifierAuthority.NT_AUTHORITY [32, 544])
    (by decide) (by decide)).2.2

/-- C6 counterexample: clone-from between heap-owned values whose counts
differ does not allocate and copy; the in-place byte copy fails (a slice
length-mismatch panic), so no byte-identical destination is produced. -/
theorem clone_from_counterexample :
    SecurityIdentifier.clone_from
      (SecurityIdentifier.new_unchecked 1 SidIdentifierAuthority.NT_AUTHORITY [1])
      (SecurityIdentifier.new_unchecked 1 SidIdentifierAuthority.NT_AUTHORITY [32, 544])
      = none := by decide

example : validate_sid_bytes_unaligned [1, 1, 0, 0, 0, 0, 0, 5, 20, 0, 0, 0] = true := by decide
example : validate_sid_bytes_unaligned [2, 1, 0, 0, 0, 0, 0, 5, 20, 0, 0, 0] = false := by decide
example : Sid.from_bytes [1, 1, 0, 0, 0, 0, 0, 5, 20, 0, 0, 0] =
    some { revision := 1, sub_authority_count := 1,
           identifier_authority := ⟨[0, 0, 0, 0, 0, 5]⟩, sub_authority := [20] } := by decide

end WinSid
